import Mathlib

/-!
Verification of the concurrent crawl-and-aggregate pipeline of feishu-docs-stats.

The embedding follows the Python sources `stats.py` and `doc_stats_utils.py`.
Python strings are modelled as `List Char` (written `Str` below); Python ints as `Int`
(counts that are list lengths as `Nat`); Python `None` as `Option.none`; a raised
exception as an explicit error value.  External remote calls (the Lark SDK client) are
modelled as parameters: a stats fetcher `String × String → Option Stat`-style function
and a per-document metadata resolver, matching the contracts in the spec's §6.
-/

/-- Python `str` is modelled as a list of characters. -/
abbrev Str := List Char

/-! ## Batcher (stats.py lines 108-117)

```
async def batcher(iter, batch_size):
    batch = []
    async for item in iter:
        batch.append(item)
        if len(batch) >= batch_size:
            yield batch
            batch = []
    # 最后一批不足 batch_size，也输出
    if batch[0]:
        yield batch
```

The `async for` loop is modelled by `batcherLoop`, returning the fully emitted batches
together with the accumulator value left when the input is exhausted.  The final
`if batch[0]:` evaluates the truthiness of the first element of the remainder; on an
empty remainder the subscript `batch[0]` raises `IndexError`, which is modelled by the
`Bool` component of `batcher` (`true` = the generator raised `IndexError` after the
emitted batches). -/

def batcherLoop (batchSize : Nat) : List α → List α → List (List α) × List α
  | [], batch => ([], batch)
  | x :: rest, batch =>
    let grown := batch ++ [x]
    if batchSize ≤ grown.length then
      let step := batcherLoop batchSize rest []
      (grown :: step.1, step.2)
    else
      batcherLoop batchSize rest grown

/-- The batches emitted by `batcher(iter, batch_size)` plus a flag recording whether the
final `if batch[0]:` raised `IndexError` (remainder empty).  `truthy` is Python
truthiness of an item; every Lark `Node` object is truthy. -/
def batcher (iter : List α) (batchSize : Nat) (truthy : α → Bool) : List (List α) × Bool :=
  let run := batcherLoop batchSize iter []
  match run.2 with
  | [] => (run.1, true)
  | x :: _ => if truthy x then (run.1 ++ [run.2], false) else (run.1, false)

/-! ## URL parsing (stats.py lines 342-365, `parse_doc_url`)

`urlparse` is Python's standard library (an external collaborator); its output is
modelled as the pair of the URL's network location and path. -/

/-- The result of `urllib.parse.urlparse` on a raw root identifier. -/
structure Url where
  netloc : Str
  path : Str
deriving DecidableEq, Repr

structure RequestDoc where
  doc_token : Str
  doc_type : Str
deriving DecidableEq, Repr

/-- Python `path.split('/')`. -/
def splitOnChar (sep : Char) : List Char → List (List Char)
  | [] => [[]]
  | c :: rest =>
    let r := splitOnChar sep rest
    if c = sep then [] :: r
    else match r with
      | [] => [[c]]
      | w :: ws => (c :: w) :: ws

/-- `parse_doc_url` (stats.py 342-365): reject a netloc that does not end with
`larkoffice.com`, split the path on `/` dropping empty parts, require at least two
parts, and build a `RequestDoc` with `doc_type = parts[0]`, `doc_token = parts[1]`.
Returns `none` where the Python code returns `None`. -/
def parse_doc_url (u : Url) : Option RequestDoc :=
  if ¬ List.isSuffixOf "larkoffice.com".data u.netloc then none
  else
    match (splitOnChar '/' u.path).filter (fun p => ¬ p.isEmpty) with
    | t :: tok :: _ => some ⟨tok, t⟩
    | _ => none

/-! ## Data model of the aggregation stage -/

/-- The fields of a Lark file-statistics object read by `get_doc_info`
(`stat.uv`, `stat.pv`, `stat.like_count`, `stat.uv_today`, `stat.pv_today`,
`stat.like_count_today`). -/
structure Stat where
  uv : Int
  pv : Int
  like_count : Int
  uv_today : Int
  pv_today : Int
  like_count_today : Int
deriving DecidableEq, Repr

/-- The fields of a Lark `Meta` object read by the pipeline. -/
structure Meta where
  title : Str
  doc_type : Str
  doc_token : Str
  latest_modify_time : Int
deriving DecidableEq, Repr

/-- The record dictionary appended by `get_doc_info` (stats.py 287-301); the same
thirteen keys are produced by `DocumentStats.to_dict` (doc_stats_utils 139-155). -/
structure Record where
  title : Str
  type : Str
  token : Str
  node_token : Str
  source_url : Str
  uv : Int
  pv : Int
  like_count : Int
  timestamp : Int
  uv_today : Int
  pv_today : Int
  like_count_today : Int
  update_time : Int
deriving DecidableEq, Repr

/-! ## Metadata bulk lookups

Two implementations exist in the repository:

* `doc_stats_utils.batch_get_meta` (lines 417-451) slices the input into chunks of
  `BATCH_SIZE = 200` (`for i in range(0, len(docs), BATCH_SIZE): docs[i:i+BATCH_SIZE]`)
  and issues one remote call per chunk;
* `stats.batch_get_meta_async` (stats.py lines 120-174) issues a single remote call and,
  when `len(docs) > 200`, truncates the input to its first 200 entries
  (`docs = docs[:200]`).

The remote responses are abstracted by `metaOf : RequestDoc → Option Meta` (the remote
may omit entries it cannot resolve); a call on a list of docs returns the resolvable
requested entries. -/

/-- The successive slices `docs[i:i+200]` taken by `doc_stats_utils.batch_get_meta`. -/
def chunk200 : List RequestDoc → List (List RequestDoc)
  | [] => []
  | x :: xs => ((x :: xs).take 200) :: chunk200 ((x :: xs).drop 200)
termination_by l => l.length
decreasing_by simp [List.length_drop]; omega

/-- The document lists handed to the remote metadata API by
`doc_stats_utils.batch_get_meta` (one per issued call). -/
def meta_calls_chunked (docs : List RequestDoc) : List (List RequestDoc) :=
  if docs.isEmpty then [] else chunk200 docs

/-- The document lists handed to the remote metadata API by `stats.batch_get_meta_async`
(one per issued call): a single call, truncated to the first 200 docs when the input is
longer. -/
def meta_calls_async (docs : List RequestDoc) : List (List RequestDoc) :=
  if docs.isEmpty then [] else [if 200 < docs.length then docs.take 200 else docs]

/-- The metadata list returned by `stats.batch_get_meta_async` under remote behaviour
`metaOf`. -/
def batch_get_meta_async (docs : List RequestDoc) (metaOf : RequestDoc → Option Meta) :
    List Meta :=
  ((meta_calls_async docs).flatMap (fun call => call.filterMap metaOf))

/-! ## Aggregator: `get_doc_info` (stats.py lines 274-303)

```
files = [(doc.doc_token, doc.doc_type) for doc in docs]
stats_dict = await batch_get_stats_async(files, user_token)
metas = await batch_get_meta_async(docs, user_token)
meta_dict = {meta.doc_token: meta for meta in metas}
for doc in docs:
    stat = stats_dict.get((doc.doc_token, doc.doc_type))
    meta = meta_dict.get(doc.doc_token)
    if not stat or not meta:
        print(f"Doc failed ...")
        continue
    res.append({...})
```

`batch_get_stats_async` returns a dict keyed by exactly the requested
`(doc_token, doc_type)` pairs whose values may be `None`; it is abstracted as
`stats : Str × Str → Option Stat` (`none` covers both a missing key and a `None`
value, which `if not stat` treats alike).  The dict comprehension building
`meta_dict` lets a later meta with the same `doc_token` overwrite an earlier one,
so a lookup returns the LAST meta carrying that token. -/

/-- `meta_dict.get(tok)` for `meta_dict = {meta.doc_token: meta for meta in metas}`. -/
def metaDictGet (metas : List Meta) (tok : Str) : Option Meta :=
  (metas.filter (fun m => m.doc_token = tok)).getLast?

/-- The record dictionary built in the loop body of `get_doc_info`. -/
def mkDocInfoRecord (doc : RequestDoc) (stat : Stat) (meta : Meta) : Record where
  title := meta.title
  type := meta.doc_type
  token := meta.doc_token
  node_token := doc.doc_token
  source_url := "https://bytedance.larkoffice.com/".data ++ meta.doc_type ++ "/".data ++ meta.doc_token
  uv := stat.uv
  pv := stat.pv
  like_count := max stat.like_count 0
  timestamp := meta.latest_modify_time
  uv_today := stat.uv_today
  pv_today := stat.pv_today
  like_count_today := stat.like_count_today
  update_time := meta.latest_modify_time

/-- The per-doc loop of `get_doc_info`: first component the appended records `res`,
second component the docs skipped with a `"Doc failed"` diagnostic naming the doc. -/
def get_doc_info_loop (stats : Str × Str → Option Stat) (metas : List Meta) :
    List RequestDoc → List Record × List RequestDoc
  | [] => ([], [])
  | doc :: rest =>
    let tail := get_doc_info_loop stats metas rest
    match stats (doc.doc_token, doc.doc_type), metaDictGet metas doc.doc_token with
    | some stat, some meta => (mkDocInfoRecord doc stat meta :: tail.1, tail.2)
    | _, _ => (tail.1, doc :: tail.2)

/-- `get_doc_info(docs, user_token)` under remote behaviours `stats` and `metaOf`.
The metadata list is obtained through `stats.batch_get_meta_async` exactly as in the
source.  The second component collects the dropped docs (printed as `"Doc failed"`). -/
def get_doc_info (docs : List RequestDoc) (stats : Str × Str → Option Stat)
    (metaOf : RequestDoc → Option Meta) : List Record × List RequestDoc :=
  get_doc_info_loop stats (batch_get_meta_async docs metaOf) docs

/-! ## Orchestrator v2 (stats.py lines 236-273 and 367-376)

`get_wiki_info` resolves the wiki root tokens, runs `walk_tree_concurrent` over the
resolved roots and pipes the resulting node stream through `batcher(·, 200)`, calling
`get_doc_info` on every batch.  The stream produced by the concurrent walk depends on
the remote hierarchy and on task scheduling, so the composed model is parameterised
directly by that emitted stream (`walkEmitted`); the walk itself is verified separately
by the `WalkStep` machine below.  Only the `obj_token`/`obj_type` fields of an emitted
node are read by this stage. -/

/-- The fields of a walked `Node` consumed by `get_wiki_info`'s batch loop. -/
structure PNode where
  obj_token : Str
  obj_type : Str
deriving DecidableEq, Repr

/-- `get_wiki_info` downstream of the walk: batch the emitted node stream with
`batcher(async_gen, batch_size=200)` and aggregate each batch with `get_doc_info`.
`Except.error ()` models the `IndexError` that `batcher` raises into the
`async for batch` loop (which propagates out of `get_wiki_info`). -/
def get_wiki_info (walkEmitted : List PNode) (stats : Str × Str → Option Stat)
    (metaOf : RequestDoc → Option Meta) : Except Unit (List Record) :=
  match batcher walkEmitted 200 (fun _ => true) with
  | (_, true) => .error ()
  | (batches, false) =>
    .ok (batches.flatMap (fun batch =>
      (get_doc_info (batch.map (fun n => ⟨n.obj_token, n.obj_type⟩)) stats metaOf).1))

/-- Python list of `parse_doc_url` results with `None` propagated: the first `None`
encountered while iterating raises `AttributeError` in the
`filter(lambda doc: doc.doc_type == "wiki", docs)` stage of
`get_document_statistics_async_v2`. -/
def allSome : List (Option α) → Option (List α)
  | [] => some []
  | none :: _ => none
  | some a :: rest => (allSome rest).map (a :: ·)

/-- `get_document_statistics_async_v2(urls, user_token)` (stats.py 367-376):
parse every url, split into wiki and non-wiki docs, aggregate the wiki hierarchy via
`get_wiki_info` and the flat docs via `get_doc_info`, and return the concatenation
`wiki_infos + doc_infos` (no further processing).  `Except.error ()` models an
uncaught exception aborting the run: the `AttributeError` raised when some
`parse_doc_url` returned `None`, or the `IndexError` propagating from `batcher`. -/
def get_document_statistics_async_v2 (urls : List Url) (walkEmitted : List PNode)
    (stats : Str × Str → Option Stat) (metaOf : RequestDoc → Option Meta) :
    Except Unit (List Record) :=
  match allSome (urls.map parse_doc_url) with
  | none => .error ()
  | some docs =>
    match get_wiki_info walkEmitted stats metaOf with
    | .error e => .error e
    | .ok wikiInfos =>
      .ok (wikiInfos
        ++ (get_doc_info (docs.filter (fun d => ¬ d.doc_type = "wiki".data))
            stats metaOf).1)

/-! ## Legacy records: `DocumentStats` (doc_stats_utils lines 74-155)

`from_api_stats(cls, node, stats, source_url, is_root)` builds a `DocumentStats` from a
node object and a statistics object; `to_dict` converts it to the final dictionary,
flooring `like_count` at zero.  The node's `obj_token` attribute may be absent or falsy
(`node.obj_token if hasattr(node, 'obj_token') and node.obj_token else node.node_token`),
modelled as an `Option Str` where `some []` is a present-but-empty (falsy) string. -/

structure ApiNode where
  title : Str
  node_token : Str
  obj_token : Option Str
  obj_type : Str
deriving DecidableEq, Repr

structure DocumentStats where
  title : Str
  token : Str
  type : Str
  node_token : Str
  source_url : Str
  uv : Int
  pv : Int
  like_count : Int
  comment_count : Int
  edit_count : Int
  timestamp : Int
  uv_today : Int
  pv_today : Int
  like_count_today : Int
  update_time : Int
deriving DecidableEq, Repr

/-- The statistics attributes read through `getattr(stats, ..., 0)` by
`from_api_stats`. -/
structure ApiStats where
  uv : Int
  pv : Int
  like_count : Int
  comment_count : Int
  edit_count : Int
  timestamp : Int
  uv_today : Int
  pv_today : Int
  like_count_today : Int
  update_time : Int
deriving DecidableEq, Repr

/-- `DocumentStats.from_api_stats` (doc_stats_utils 93-137).  Returns `none` when
`stats` is `None`.  The root keeps the caller-supplied `source_url`; a non-root node
gets `f"{base_url}/wiki/{node.node_token}"`. -/
def DocumentStats.from_api_stats (node : ApiNode) (stats : Option ApiStats)
    (source_url : Str) (is_root : Bool) : Option DocumentStats :=
  match stats with
  | none => none
  | some st =>
    let token := match node.obj_token with
      | some t => if t.isEmpty then node.node_token else t
      | none => node.node_token
    let node_url := if is_root then source_url
      else "https://bytedance.larkoffice.com".data ++ "/wiki/".data ++ node.node_token
    some {
      title := node.title
      token := token
      type := node.obj_type
      node_token := node.node_token
      source_url := node_url
      uv := st.uv
      pv := st.pv
      like_count := st.like_count
      comment_count := st.comment_count
      edit_count := st.edit_count
      timestamp := st.timestamp
      uv_today := st.uv_today
      pv_today := st.pv_today
      like_count_today := st.like_count_today
      update_time := st.update_time }

/-- `DocumentStats.to_dict` (doc_stats_utils 139-155): the exported dictionary, with
`like_count` floored at zero (`max(self.like_count, 0)`). -/
def DocumentStats.to_dict (ds : DocumentStats) : Record where
  title := ds.title
  type := ds.type
  token := ds.token
  node_token := ds.node_token
  source_url := ds.source_url
  uv := ds.uv
  pv := ds.pv
  like_count := max ds.like_count 0
  timestamp := ds.timestamp
  uv_today := ds.uv_today
  pv_today := ds.pv_today
  like_count_today := ds.like_count_today
  update_time := ds.update_time

/-! ## The final sort of the legacy orchestrator

`get_document_statistics_async` (doc_stats_utils 1448-1549) ends with
`all_doc_stats.sort(key=lambda x: x.get("uv", 0), reverse=True)`.  Python's `list.sort`
is a stable sort; with `reverse=True` it produces the descending order in which
elements of equal key keep their original relative order.  A stable descending sort is
uniquely determined by these two properties, so it is embedded as insertion sort with
the relation « the earlier element stays first unless the later has strictly larger
uv », i.e. `uvGe a b := b.uv ≤ a.uv` with ties resolved in favour of the element
already in front. -/

/-- Descending-by-uv comparison used to embed `sort(key=uv, reverse=True)`. -/
def uvGe (a b : Record) : Prop := b.uv ≤ a.uv

instance : DecidableRel uvGe := fun a b => inferInstanceAs (Decidable (b.uv ≤ a.uv))

instance : IsTotal Record uvGe := ⟨fun a b => (Int.le_total a.uv b.uv).symm⟩

instance : IsTrans Record uvGe := ⟨fun _ _ _ h₁ h₂ => le_trans h₂ h₁⟩

/-- The embedding of `all_doc_stats.sort(key=lambda x: x.get("uv", 0), reverse=True)`
(doc_stats_utils line 1546): Python's stable descending sort by `uv`. -/
def pySortUvDesc (l : List Record) : List Record :=
  List.insertionSort uvGe l

/-! ## TreeWalker: `walk_tree_concurrent` (stats.py lines 69-105)

```
async def worker():
    node = await q_parents.get()
    await q_nodes.put(node)
    async with throttler:
        children = await get_children(node, user_token)
        for child in children:
            if child.has_child:
                await q_parents.put(child)
                asyncio.create_task(worker())
            else:
                await q_nodes.put(child)
    q_parents.task_done()

async def add_parent(node):
    await q_parents.put(node)
    asyncio.create_task(worker())

async def wait_for_completion():
    await q_parents.join()
    await q_nodes.put(None)

for root in roots:
    await add_parent(root)
asyncio.create_task(wait_for_completion())
```

Nodes are identified with natural numbers; `ch n` is the child list returned by
`get_children(n)` and `hc c` the `child.has_child` flag.  Exactly one worker is created
per `q_parents.put`, each worker performs exactly one `get`, and the code between two
suspension points runs without interleaving, so a run of the walk is a sequence of
three kinds of atomic transitions:

* `get`: a worker dequeues the head of `q_parents` (FIFO) and immediately puts the
  node on the result stream `q_nodes`;
* `children`: the pending `get_children` call of some node the worker already emitted
  returns (in any order across workers — this is the scheduling nondeterminism); the
  worker enqueues its `has_child` children on `q_parents` (spawning their workers) and
  puts the remaining children directly on `q_nodes`, then calls `task_done`;
* `close`: `q_parents.join()` fires.  The queue's unfinished-task counter is
  incremented by every `put` and decremented only by the `task_done` at the very end of
  a worker, after that worker's own children have been `put`; hence the counter is
  exactly `qparents.length + inflight.length`, and `join` can fire only when both are
  empty, at which point `None` is put on `q_nodes` (the `closed` flag).

`WalkState.inflight` lists the nodes whose workers are between their `q_nodes.put` and
their `task_done`.  `emitted` is the sequence of nodes put on `q_nodes`. -/

structure WalkState where
  qparents : List Nat
  inflight : List Nat
  emitted : List Nat
  closed : Bool
deriving DecidableEq, Repr

/-- The atomic transitions of `walk_tree_concurrent` described above. -/
inductive WalkStep (ch : Nat → List Nat) (hc : Nat → Bool) : WalkState → WalkState → Prop
  | get (n : Nat) (q infl em : List Nat) :
      WalkStep ch hc ⟨n :: q, infl, em, false⟩ ⟨q, infl ++ [n], em ++ [n], false⟩
  | children (n : Nat) (q la lb em : List Nat) :
      WalkStep ch hc ⟨q, la ++ n :: lb, em, false⟩
        ⟨q ++ (ch n).filter hc, la ++ lb,
          em ++ (ch n).filter (fun c => !hc c), false⟩
  | close (em : List Nat) :
      WalkStep ch hc ⟨[], [], em, false⟩ ⟨[], [], em, true⟩

/-- The initial state: every root is put on `q_parents` (in order) before the
`wait_for_completion` task is created. -/
def walkInit (roots : List Nat) : WalkState := ⟨roots, [], [], false⟩

/-- The intended emission set of the walk, as a list: a node scheduled for expansion
contributes itself followed by the contributions of its children, where a `has_child`
child is recursively expanded and any other child contributes just itself.  `fuel`
bounds the recursion depth; it is irrelevant as soon as it exceeds the node's height
(`visitF_stable`). -/
def visitF (ch : Nat → List Nat) (hc : Nat → Bool) : Nat → Nat → List Nat
  | 0, n => [n]
  | fuel + 1, n =>
    n :: (ch n).flatMap (fun c => if hc c then visitF ch hc fuel c else [c])

/-- The part of `visitF` contributed by the children of an expanded node. -/
def childContrib (ch : Nat → List Nat) (hc : Nat → Bool) (fuel : Nat) (n : Nat) :
    List Nat :=
  (ch n).flatMap (fun c => if hc c then visitF ch hc fuel c else [c])

/-- All nodes the walk seeded with `roots` is meant to emit. -/
def walkSpec (ch : Nat → List Nat) (hc : Nat → Bool) (fuel : Nat) (roots : List Nat) :
    List Nat :=
  roots.flatMap (visitF ch hc fuel)

theorem flatMap_congr_mem {l : List Nat} {f g : Nat → List Nat}
    (h : ∀ c ∈ l, f c = g c) : l.flatMap f = l.flatMap g := by
  induction l with
  | nil => rfl
  | cons c t ih =>
    simp only [List.flatMap_cons]
    rw [h c (by simp), ih (fun x hx => h x (by simp [hx]))]

/-- Fuel irrelevance of `visitF` on hierarchies with a strictly decreasing rank
(the acyclicity assumption): any two fuels above the node's rank agree. -/
theorem visitF_stable (ch : Nat → List Nat) (hc : Nat → Bool) (rk : Nat → Nat)
    (hrk : ∀ n c, c ∈ ch n → rk c < rk n) :
    ∀ (k n f₁ f₂ : Nat), rk n ≤ k → rk n < f₁ → rk n < f₂ →
      visitF ch hc f₁ n = visitF ch hc f₂ n := by
  intro k
  induction k with
  | zero =>
    intro n f₁ f₂ hk h1 h2
    match f₁, f₂, h1, h2 with
    | a + 1, b + 1, _, _ =>
      simp only [visitF]
      refine congrArg (n :: ·) (flatMap_congr_mem ?_)
      intro c h

      have hc0 : rk c < rk n := hrk n c h
      omega
  | succ k ih =>
    intro n f₁ f₂ hk h1 h2
    match f₁, f₂, h1, h2 with
    | a + 1, b + 1, _, _ =>
      simp only [visitF]
      refine congrArg (n :: ·) (flatMap_congr_mem ?_)
      intro c hmem
      have hlt : rk c < rk n := hrk n c hmem
      by_cases hcc : hc c
      · simp only [hcc, if_true]
        exact ih c a b (by omega) (by omega) (by omega)
      · simp [hcc]

/-- Unfolding of `visitF` at a sufficiently large uniform fuel. -/
theorem visitF_unfold (ch : Nat → List Nat) (hc : Nat → Bool) (rk : Nat → Nat)
    (hrk : ∀ n c, c ∈ ch n → rk c < rk n) (B : Nat) (n : Nat) (hn : rk n < B) :
    visitF ch hc B n = n :: childContrib ch hc B n := by
  match B, hn with
  | b + 1, _ =>
    simp only [visitF, childContrib]
    refine congrArg (n :: ·) (flatMap_congr_mem ?_)
    intro c hmem
    have hlt : rk c < rk n := hrk n c hmem
    by_cases hcc : hc c
    · simp only [hcc, if_true]
      exact visitF_stable ch hc rk hrk (rk c) c b (b + 1) le_rfl (by omega) (by omega)
    · simp [hcc]

/-- A child-contribution list splits, as a multiset, into the expansions of the
`has_child` children plus the directly emitted other children. -/
theorem childContrib_split (ch : Nat → List Nat) (hc : Nat → Bool) (fuel : Nat)
    (n : Nat) :
    (↑(childContrib ch hc fuel n) : Multiset Nat)
      = ↑(((ch n).filter hc).flatMap (visitF ch hc fuel))
        + ↑((ch n).filter (fun c => !hc c)) := by
  simp only [childContrib]
  induction ch n with
  | nil => simp
  | cons c t ih =>
    cases hcc : hc c with
    | true =>
      have ih2 := Multiset.coe_eq_coe.mp (ih.trans (Multiset.coe_add _ _).symm)
      simp [hcc, List.filter_cons]
      exact ih2.append_left _
    | false =>
      have ih2 := Multiset.coe_eq_coe.mp (ih.trans (Multiset.coe_add _ _).symm)
      simp [hcc, List.filter_cons]
      exact (ih2.cons c).trans List.perm_middle.symm

/-- The coordination invariant of the walk: the nodes already emitted, plus the pending
contribution of every node still queued on `q_parents`, plus the pending
child-contribution of every in-flight expansion, form exactly the intended emission
multiset of the roots. -/
def walkInv (ch : Nat → List Nat) (hc : Nat → Bool) (B : Nat) (roots : List Nat)
    (s : WalkState) : Prop :=
  (↑s.emitted + ↑(s.qparents.flatMap (visitF ch hc B))
    + ↑(s.inflight.flatMap (childContrib ch hc B)) : Multiset Nat)
    = ↑(walkSpec ch hc B roots)

theorem walkInv_init (ch : Nat → List Nat) (hc : Nat → Bool) (B : Nat)
    (roots : List Nat) : walkInv ch hc B roots (walkInit roots) := by
  simp [walkInv, walkInit, walkSpec]

theorem mcoe_append (l₁ l₂ : List Nat) : (↑(l₁ ++ l₂) : Multiset Nat) = ↑l₁ + ↑l₂ := rfl

theorem mcoe_cons (a : Nat) (l : List Nat) : (↑(a :: l) : Multiset Nat) = {a} + ↑l := rfl

theorem walkInv_preserved (ch : Nat → List Nat) (hc : Nat → Bool) (rk : Nat → Nat)
    (hrk : ∀ n c, c ∈ ch n → rk c < rk n) (B : Nat) (hB : ∀ n, rk n < B)
    (roots : List Nat) {s t : WalkState} (hstep : WalkStep ch hc s t)
    (hinv : walkInv ch hc B roots s) : walkInv ch hc B roots t := by
  cases hstep with
  | get n q infl em =>
    simp only [walkInv] at hinv ⊢
    rw [List.flatMap_cons, visitF_unfold ch hc rk hrk B n (hB n)] at hinv
    simp only [mcoe_append, mcoe_cons, Multiset.coe_nil, add_zero] at hinv
    simp only [List.flatMap_append, List.flatMap_cons, List.flatMap_nil,
      List.append_nil, mcoe_append, mcoe_cons, Multiset.coe_nil, add_zero]
    rw [← hinv]
    abel
  | children n q la lb em =>
    simp only [walkInv] at hinv ⊢
    rw [List.flatMap_append, List.flatMap_cons] at hinv
    simp only [mcoe_append] at hinv
    rw [childContrib_split ch hc B n] at hinv
    simp only [List.flatMap_append, mcoe_append]
    rw [← hinv]
    abel
  | close em =>
    exact hinv

/-- Every state reachable from the initial state satisfies the invariant. -/
theorem walkInv_reachable (ch : Nat → List Nat) (hc : Nat → Bool) (rk : Nat → Nat)
    (hrk : ∀ n c, c ∈ ch n → rk c < rk n) (B : Nat) (hB : ∀ n, rk n < B)
    (roots : List Nat) {s : WalkState}
    (hreach : Relation.ReflTransGen (WalkStep ch hc) (walkInit roots) s) :
    walkInv ch hc B roots s := by
  induction hreach with
  | refl => exact walkInv_init ch hc B roots
  | tail _ hstep ih => exact walkInv_preserved ch hc rk hrk B hB roots hstep ih

/-- The close signal is put only when the task counter is zero: in any reachable closed
state both coordination queues are empty. -/
theorem walk_closed_empty (ch : Nat → List Nat) (hc : Nat → Bool) (roots : List Nat)
    {s : WalkState}
    (hreach : Relation.ReflTransGen (WalkStep ch hc) (walkInit roots) s)
    (hcl : s.closed = true) : s.qparents = [] ∧ s.inflight = [] := by
  induction hreach with
  | refl => simp [walkInit] at hcl
  | tail _ hstep _ =>
    cases hstep with
    | get n q infl em => simp at hcl
    | children n q la lb em => simp at hcl
    | close em => exact ⟨rfl, rfl⟩

/-- After the close signal no transition is possible: nothing is emitted past the
end-of-stream marker. -/
theorem walk_no_step_after_close (ch : Nat → List Nat) (hc : Nat → Bool)
    {s t : WalkState} (hcl : s.closed = true) : ¬ WalkStep ch hc s t := by
  intro h
  cases h <;> simp at hcl

/-- C2: for every finite acyclic hierarchy (children function `ch` with a strictly
decreasing rank, all ranks below `B`) whose intended emission list has no duplicates
(each node is reachable along exactly one path — a tree/forest), every terminated run
of `walk_tree_concurrent` — i.e. every reachable state in which the end-of-stream
marker has been put — has emitted exactly the reachable nodes, each exactly once
(a permutation of `walkSpec`, with no duplicates), and no transition (in particular no
further emission) is possible after the close signal. -/
theorem C2_walk_emits_each_reachable_node_once (ch : Nat → List Nat) (hc : Nat → Bool)
    (rk : Nat → Nat) (B : Nat) (roots : List Nat) (s : WalkState)
    (hrk : ∀ n c, c ∈ ch n → rk c < rk n) (hB : ∀ n, rk n < B)
    (htree : (walkSpec ch hc B roots).Nodup)
    (hreach : Relation.ReflTransGen (WalkStep ch hc) (walkInit roots) s)
    (hclosed : s.closed = true) :
    s.emitted.Perm (walkSpec ch hc B roots) ∧ s.emitted.Nodup ∧
      ∀ t, ¬ WalkStep ch hc s t := by
  have hinv := walkInv_reachable ch hc rk hrk B hB roots hreach
  obtain ⟨hq, hi⟩ := walk_closed_empty ch hc roots hreach hclosed
  rw [walkInv, hq, hi] at hinv
  simp only [List.flatMap_nil, Multiset.coe_nil, add_zero] at hinv
  have hperm := Multiset.coe_eq_coe.mp hinv
  exact ⟨hperm, hperm.nodup_iff.mpr htree,
    fun t => walk_no_step_after_close ch hc hclosed⟩

/-- A concrete hierarchy for exercising the walk: node 0 is the root with children 1
(a container) and 2 (a leaf); node 1 has no children. -/
def chW : Nat → List Nat := fun n => if n = 0 then [1, 2] else []

def hcW : Nat → Bool := fun n => n == 1

def rkW : Nat → Nat := fun n => if n = 0 then 1 else 0

theorem chW_rank : ∀ n c, c ∈ chW n → rkW c < rkW n := by
  intro n c h
  by_cases hn : n = 0
  · subst hn
    simp only [chW, if_true, List.mem_cons, List.not_mem_nil, or_false] at h
    rcases h with h | h <;> subst h <;> simp [rkW]
  · simp [chW, hn] at h

theorem rkW_lt : ∀ n, rkW n < 2 := by
  intro n
  unfold rkW
  split <;> omega

/-- A complete schedule of the walk on `chW` from root 0: expansion of 0, direct
emission of leaf 2, expansion of 1, then close; it emits 0, 2, 1 in that order. -/
theorem walkReachW :
    Relation.ReflTransGen (WalkStep chW hcW) (walkInit [0])
      ⟨[], [], [0, 2, 1], true⟩ := by
  refine Relation.ReflTransGen.head (WalkStep.get 0 [] [] [])
    (Relation.ReflTransGen.head (WalkStep.children 0 [] [] [] [0])
      (Relation.ReflTransGen.head (WalkStep.get 1 [] [] [0, 2])
        (Relation.ReflTransGen.head (WalkStep.children 1 [] [] [] [0, 2, 1])
          (Relation.ReflTransGen.single (WalkStep.close [0, 2, 1])))))

/-- Witness for C2 at the concrete hierarchy `chW`: the intended emission list
`[0, 1, 2]` has no duplicates, and the terminated run that emitted `[0, 2, 1]`
satisfies the conclusion of the walk theorem. -/
theorem C2_walk_emits_each_reachable_node_once_witness :
    (walkSpec chW hcW 2 [0]).Nodup ∧
      ((⟨[], [], [0, 2, 1], true⟩ : WalkState).emitted.Perm (walkSpec chW hcW 2 [0]) ∧
        (⟨[], [], [0, 2, 1], true⟩ : WalkState).emitted.Nodup ∧
        ∀ t, ¬ WalkStep chW hcW ⟨[], [], [0, 2, 1], true⟩ t) :=
  ⟨by decide,
    C2_walk_emits_each_reachable_node_once chW hcW rkW 2 [0] ⟨[], [], [0, 2, 1], true⟩
      chW_rank rkW_lt (by decide) walkReachW rfl⟩

/-- Extract the record list of a completed run (`[]` for an aborted run). -/
def okD (e : Except Unit (List Record)) : List Record :=
  match e with
  | .ok l => l
  | .error _ => []

/-! ## Concrete scenario shared by the orchestrator counterexamples

One wiki root `W` whose walk emits a single node with object token `WO` of type
`docx`, plus the flat document URL `https://bytedance.larkoffice.com/docx/X`; both
fetchers resolve everything. -/

def wikiUrlC : Url := ⟨"bytedance.larkoffice.com".data, "/wiki/W".data⟩

def docxUrlC : Url := ⟨"bytedance.larkoffice.com".data, "/docx/X".data⟩

def cEmitted : List PNode := [⟨"WO".data, "docx".data⟩]

def cStats : Str × Str → Option Stat := fun p =>
  if p = ("WO".data, "docx".data) then some ⟨1, 1, 3, 0, 0, 0⟩
  else if p = ("X".data, "docx".data) then some ⟨5, 9, -2, 1, 1, 1⟩
  else none

def cMetaOf : RequestDoc → Option Meta := fun d =>
  if d = ⟨"WO".data, "docx".data⟩ then some ⟨"RootDoc".data, "docx".data, "WO".data, 10⟩
  else if d = ⟨"X".data, "docx".data⟩ then some ⟨"FlatDoc".data, "docx".data, "X".data, 20⟩
  else none

/-- C1 (code bug): on an input stream whose length is an exact positive multiple of
`max_batch_size` — here two nodes with `max_batch_size = 2` — `batcher` emits the full
batches and then raises `IndexError` from the final `if batch[0]:` (the remainder is
empty, so the subscript fails) instead of ending the stream normally; the empty input
stream raises the same way.  This contradicts both the claim and the code's own
comment that a non-empty final partial batch is emitted and the stream then ends. -/
theorem C1_batcher_raises_on_exact_multiple :
    batcher ([10, 11] : List Nat) 2 (fun _ => true) = ([[10, 11]], true) ∧
      batcher ([] : List Nat) 2 (fun _ => true) = ([], true) := by
  constructor <;> rfl

theorem get_doc_info_loop_length (stats : Str × Str → Option Stat) (metas : List Meta) :
    ∀ docs : List RequestDoc,
      (get_doc_info_loop stats metas docs).1.length
        + (get_doc_info_loop stats metas docs).2.length = docs.length := by
  intro docs
  induction docs with
  | nil => rfl
  | cons d t ih =>
    simp only [get_doc_info_loop]
    cases stats (d.doc_token, d.doc_type) <;>
      cases metaDictGet metas d.doc_token <;>
      simp only [List.length_cons] <;> omega

/-- C8: for every batch and all fetcher behaviours, each identity in the batch either
yields exactly one record or is dropped into the `"Doc failed"` diagnostic list, so
the Aggregator's output record count plus its dropped-identity count equals the batch
size. -/
theorem C8_records_plus_dropped_equals_batch_size (docs : List RequestDoc)
    (stats : Str × Str → Option Stat) (metaOf : RequestDoc → Option Meta) :
    (get_doc_info docs stats metaOf).1.length
      + (get_doc_info docs stats metaOf).2.length = docs.length :=
  get_doc_info_loop_length stats (batch_get_meta_async docs metaOf) docs

theorem get_doc_info_loop_like_nonneg (stats : Str × Str → Option Stat)
    (metas : List Meta) :
    ∀ (docs : List RequestDoc) (r : Record),
      r ∈ (get_doc_info_loop stats metas docs).1 → 0 ≤ r.like_count := by
  intro docs
  induction docs with
  | nil => intro r hr; simp [get_doc_info_loop] at hr
  | cons d t ih =>
    intro r hr
    simp only [get_doc_info_loop] at hr
    cases hs : stats (d.doc_token, d.doc_type) <;>
      cases hm : metaDictGet metas d.doc_token <;>
      simp only [hs, hm, List.mem_cons] at hr
    · exact ih r hr
    · exact ih r hr
    · exact ih r hr
    · rcases hr with rfl | hr
      · simp only [mkDocInfoRecord]
        exact le_max_right _ _
      · exact ih r hr

/-- C10: every `DocumentRecord` in the pipeline's output has `like_count ≥ 0` even
when the upstream `StatsRecord` reports a negative value: both the v2 aggregator
`get_doc_info` and the legacy `DocumentStats.to_dict` floor `like_count` at zero via
`max(like_count, 0)`. -/
theorem C10_like_count_nonneg :
    (∀ (docs : List RequestDoc) (stats : Str × Str → Option Stat)
        (metaOf : RequestDoc → Option Meta) (r : Record),
        r ∈ (get_doc_info docs stats metaOf).1 → 0 ≤ r.like_count) ∧
      ∀ ds : DocumentStats, 0 ≤ (DocumentStats.to_dict ds).like_count := by
  constructor
  · intro docs stats metaOf r hr
    exact get_doc_info_loop_like_nonneg stats (batch_get_meta_async docs metaOf) docs r hr
  · intro ds
    simp only [DocumentStats.to_dict]
    exact le_max_right _ _

/-- The record the aggregator produces for the flat document `X` whose upstream stat
reports `like_count = -2`. -/
def cRecX : Record :=
  mkDocInfoRecord ⟨"X".data, "docx".data⟩ ⟨5, 9, -2, 1, 1, 1⟩
    ⟨"FlatDoc".data, "docx".data, "X".data, 20⟩

/-- Witness for C10: the record for flat document `X` (upstream `like_count = -2`) is
in the aggregated output and its `like_count` is non-negative (floored to 0). -/
theorem C10_like_count_nonneg_witness :
    cRecX ∈ (get_doc_info [⟨"X".data, "docx".data⟩] cStats cMetaOf).1 ∧
      0 ≤ cRecX.like_count :=
  ⟨by decide,
    C10_like_count_nonneg.1 [⟨"X".data, "docx".data⟩] cStats cMetaOf cRecX (by decide)⟩

theorem getLastQ_mem : ∀ (l : List Meta) (m : Meta), l.getLast? = some m → m ∈ l := by
  intro l
  induction l with
  | nil => intro m h; simp at h
  | cons a t ih =>
    intro m h
    cases t with
    | nil =>
      simp only [List.getLast?_singleton, Option.some.injEq] at h
      simp [h]
    | cons b t2 =>
      rw [List.getLast?_cons_cons] at h
      exact List.mem_cons_of_mem a (ih m h)

theorem getLastQ_all_eq : ∀ (l : List Meta) (m : Meta), l ≠ [] → (∀ x ∈ l, x = m) →
    l.getLast? = some m := by
  intro l
  induction l with
  | nil => intro m h _; exact absurd rfl h
  | cons a t ih =>
    intro m _ hall
    cases t with
    | nil => simp [List.getLast?_singleton, hall a (by simp)]
    | cons b t2 =>
      rw [List.getLast?_cons_cons]
      exact ih m (by simp) (fun x hx => hall x (by simp [hx]))

/-- C7 (amended): the Aggregator's metadata lookup table is keyed by the token ALONE,
not by the full `(token, type)` identity: a successful lookup returns the last meta in
the response whose `doc_token` equals the requested token (so the returned meta does
carry that token and comes from the response), the lookup result is entirely
independent of the requesting identity's type, and only when the response holds at
most one meta per token does each meta get retrieved for its own token.  (The stats
half of the join does use the full `(token, type)` pair.) -/
theorem C7_meta_join_is_by_token_only :
    (∀ (metas : List Meta) (tok : Str) (m : Meta),
        metaDictGet metas tok = some m → m.doc_token = tok ∧ m ∈ metas) ∧
    (∀ (metas : List Meta) (d₁ d₂ : RequestDoc), d₁.doc_token = d₂.doc_token →
        metaDictGet metas d₁.doc_token = metaDictGet metas d₂.doc_token) ∧
    (∀ metas : List Meta,
        (∀ m₁ ∈ metas, ∀ m₂ ∈ metas, m₁.doc_token = m₂.doc_token → m₁ = m₂) →
        ∀ m ∈ metas, metaDictGet metas m.doc_token = some m) := by
  refine ⟨?_, ?_, ?_⟩
  · intro metas tok m h
    unfold metaDictGet at h
    obtain ⟨h1, h2⟩ := List.mem_filter.mp (getLastQ_mem _ m h)
    exact ⟨by simpa using h2, h1⟩
  · intro metas d₁ d₂ h
    rw [h]
  · intro metas huniq m hm
    unfold metaDictGet
    apply getLastQ_all_eq
    · intro hemp
      have hmem : m ∈ metas.filter (fun x => x.doc_token = m.doc_token) :=
        List.mem_filter.mpr ⟨hm, by simp⟩
      rw [hemp] at hmem
      simp at hmem
    · intro x hx
      obtain ⟨hx1, hx2⟩ := List.mem_filter.mp hx
      exact huniq x hx1 m hm (by simpa using hx2)

def cDocsC7 : List RequestDoc := [⟨"X".data, "docx".data⟩, ⟨"X".data, "sheet".data⟩]

def cStatsC7 : Str × Str → Option Stat := fun _ => some ⟨1, 1, 1, 1, 1, 1⟩

def cMetaOfC7 : RequestDoc → Option Meta := fun d =>
  if d.doc_type = "docx".data then some ⟨"TD".data, "docx".data, "X".data, 5⟩
  else some ⟨"TS".data, "sheet".data, "X".data, 7⟩

/-- Counterexample to C7 as stated: in a batch holding the two identities
`("X", docx)` and `("X", sheet)`, where the metadata response resolves both (title
`TD` for the docx, `TS` for the sheet), the docx identity's record is built from the
SHEET's meta (title `TS`, type `sheet`): identities with the same token but different
types do receive each other's metadata, because the lookup table is keyed by token
only and the last meta with that token wins. -/
theorem C7_same_token_different_type_cex :
    ((get_doc_info cDocsC7 cStatsC7 cMetaOfC7).1.map (fun r => (r.title, r.type)))
        = [("TS".data, "sheet".data), ("TS".data, "sheet".data)] ∧
      cDocsC7.map RequestDoc.doc_type = ["docx".data, "sheet".data] := by
  constructor <;> rfl

/-- Witness for C7: a concrete successful lookup returns a meta carrying the requested
token, taken from the response list. -/
theorem C7_meta_join_is_by_token_only_witness :
    (⟨"TD".data, "docx".data, "X".data, 5⟩ : Meta).doc_token = "X".data ∧
      (⟨"TD".data, "docx".data, "X".data, 5⟩ : Meta)
        ∈ [(⟨"TD".data, "docx".data, "X".data, 5⟩ : Meta)] :=
  C7_meta_join_is_by_token_only.1 [⟨"TD".data, "docx".data, "X".data, 5⟩] "X".data
    ⟨"TD".data, "docx".data, "X".data, 5⟩ (by decide)

theorem chunk200_flatten : ∀ l : List RequestDoc, (chunk200 l).flatten = l := by
  intro l
  induction l using chunk200.induct with
  | case1 => simp [chunk200]
  | case2 x xs ih =>
    simp only [chunk200, List.flatten_cons, ih]
    exact List.take_append_drop 200 (x :: xs)

theorem chunk200_le : ∀ l : List RequestDoc, ∀ c ∈ chunk200 l, c.length ≤ 200 := by
  intro l
  induction l using chunk200.induct with
  | case1 => simp [chunk200]
  | case2 x xs ih =>
    intro c hc
    simp only [chunk200, List.mem_cons] at hc
    rcases hc with rfl | hc
    · simp only [List.length_take]
      omega
    · exact ih c hc

/-- C9 (amended): every issued metadata bulk-lookup call carries at most 200
identities in both implementations; the synchronous `doc_stats_utils.batch_get_meta`
chunks losslessly — concatenating its issued calls gives back exactly the input, so
every identity is in exactly one call — but the async `stats.batch_get_meta_async`
issues a single call and truncates an input longer than 200 to its first 200
identities, so the identities beyond position 200 appear in no issued call. -/
theorem C9_meta_bulk_call_ceiling_and_chunking (docs : List RequestDoc) :
    (∀ c ∈ meta_calls_chunked docs, c.length ≤ 200) ∧
      (meta_calls_chunked docs).flatten = docs ∧
      (∀ c ∈ meta_calls_async docs, c.length ≤ 200) ∧
      (meta_calls_async docs).flatten = docs.take 200 := by
  refine ⟨?_, ?_, ?_, ?_⟩
  · intro c hc
    unfold meta_calls_chunked at hc
    by_cases h : docs.isEmpty
    · simp [h] at hc
    · simp only [h, if_false] at hc
      exact chunk200_le docs c hc
  · unfold meta_calls_chunked
    by_cases h : docs.isEmpty
    · simp [List.isEmpty_iff.mp h]
    · simp only [h, if_false]
      exact chunk200_flatten docs
  · intro c hc
    unfold meta_calls_async at hc
    by_cases h : docs.isEmpty
    · simp [h] at hc
    · simp [h] at hc
      subst hc
      by_cases hlen : 200 < docs.length
      · simp only [hlen, if_true, List.length_take]
        omega
      · simp only [hlen, if_false]
        omega
  · unfold meta_calls_async
    by_cases h : docs.isEmpty
    · simp [List.isEmpty_iff.mp h]
    · simp only [h, if_false]
      by_cases hlen : 200 < docs.length
      · simp [hlen]
      · simp only [hlen, if_false, List.flatten, List.append_nil]
        exact (List.take_of_length_le (by omega)).symm

/-- 201 pairwise distinct document identities. -/
def docs201 : List RequestDoc :=
  (List.range 201).map (fun i => ⟨[Char.ofNat i], "docx".data⟩)

set_option maxRecDepth 4000 in
/-- Counterexample to C9 as stated: `stats.batch_get_meta_async` given 201 identities
issues a single sub-batch call that omits the 201st identity — the input is truncated,
not chunked, so not every input identity is included in an issued call. -/
theorem C9_async_truncation_cex :
    (⟨[Char.ofNat 200], "docx".data⟩ : RequestDoc) ∈ docs201 ∧
      ∀ c ∈ meta_calls_async docs201,
        (⟨[Char.ofNat 200], "docx".data⟩ : RequestDoc) ∉ c := by
  constructor
  · decide
  · decide

theorem get_doc_info_loop_source_url (stats : Str × Str → Option Stat)
    (metas : List Meta) :
    ∀ (docs : List RequestDoc) (r : Record), r ∈ (get_doc_info_loop stats metas docs).1 →
      r.source_url
        = "https://bytedance.larkoffice.com/".data ++ r.type ++ "/".data ++ r.token := by
  intro docs
  induction docs with
  | nil => intro r hr; simp [get_doc_info_loop] at hr
  | cons d t ih =>
    intro r hr
    simp only [get_doc_info_loop] at hr
    cases hs : stats (d.doc_token, d.doc_type) <;>
      cases hm : metaDictGet metas d.doc_token <;>
      simp only [hs, hm, List.mem_cons] at hr
    · exact ih r hr
    · exact ih r hr
    · exact ih r hr
    · rcases hr with rfl | hr
      · rfl
      · exact ih r hr

/-- C6 (amended): in the legacy pipeline (`DocumentStats.from_api_stats`) the walk
root's record keeps the caller-supplied original URL, while every non-root record's
`source_url` is `base_url + "/wiki/" + node.node_token` — built from the hierarchy
token under a literal `wiki` segment, not from the identity's type and token.  In the
v2 pipeline (`get_doc_info`) every record — the walk root's included — has
`source_url` derived from its meta's type and token. -/
theorem C6_source_url_shapes :
    (∀ (node : ApiNode) (stats : Option ApiStats) (url : Str) (ds : DocumentStats),
        DocumentStats.from_api_stats node stats url true = some ds →
          ds.source_url = url) ∧
    (∀ (node : ApiNode) (stats : Option ApiStats) (url : Str) (ds : DocumentStats),
        DocumentStats.from_api_stats node stats url false = some ds →
          ds.source_url
            = "https://bytedance.larkoffice.com".data ++ "/wiki/".data
              ++ node.node_token) ∧
    (∀ (docs : List RequestDoc) (stats : Str × Str → Option Stat)
        (metaOf : RequestDoc → Option Meta) (r : Record),
        r ∈ (get_doc_info docs stats metaOf).1 →
          r.source_url
            = "https://bytedance.larkoffice.com/".data ++ r.type ++ "/".data
              ++ r.token) := by
  refine ⟨?_, ?_, ?_⟩
  · intro node stats url ds h
    cases stats with
    | none => simp [DocumentStats.from_api_stats] at h
    | some st =>
      simp only [DocumentStats.from_api_stats, Option.some.injEq] at h
      subst h
      rfl
  · intro node stats url ds h
    cases stats with
    | none => simp [DocumentStats.from_api_stats] at h
    | some st =>
      simp only [DocumentStats.from_api_stats, Option.some.injEq] at h
      subst h
      rfl
  · intro docs stats metaOf r hr
    exact get_doc_info_loop_source_url stats (batch_get_meta_async docs metaOf) docs r hr

def cNodeC6 : ApiNode := ⟨"T".data, "NT".data, some "OT".data, "docx".data⟩

def cApiStatsC6 : ApiStats := ⟨1, 2, 3, 4, 5, 6, 7, 8, 9, 10⟩

def cDsC6 : DocumentStats :=
  ⟨"T".data, "OT".data, "docx".data, "NT".data, "u".data, 1, 2, 3, 4, 5, 6, 7, 8, 9, 10⟩

/-- Witness for C6: a concrete root invocation of `from_api_stats` yields a record
whose `source_url` is the caller-supplied URL. -/
theorem C6_source_url_shapes_witness :
    DocumentStats.from_api_stats cNodeC6 (some cApiStatsC6) "u".data true = some cDsC6 ∧
      cDsC6.source_url = "u".data :=
  ⟨by rfl, C6_source_url_shapes.1 cNodeC6 (some cApiStatsC6) "u".data cDsC6 (by rfl)⟩

theorem orderedInsert_filter_uv (k : Int) (x : Record) :
    ∀ s : List Record,
      (List.orderedInsert uvGe x s).filter (fun r => r.uv == k)
        = ((x :: s).filter (fun r => r.uv == k)) := by
  intro s
  induction s with
  | nil => rfl
  | cons y ys ih =>
    simp only [List.orderedInsert]
    by_cases hxy : uvGe x y
    · rw [if_pos hxy]
    · rw [if_neg hxy]
      have hlt : x.uv < y.uv := by
        simp only [uvGe] at hxy
        omega
      by_cases hx : x.uv = k <;> by_cases hy : y.uv = k
      · omega
      · simp [List.filter_cons, ih, hx, hy]
      · simp [List.filter_cons, ih, hx, hy]
      · simp [List.filter_cons, ih, hx, hy]

theorem pySortUvDesc_stable (k : Int) : ∀ l : List Record,
    (pySortUvDesc l).filter (fun r => r.uv == k) = l.filter (fun r => r.uv == k) := by
  intro l
  induction l with
  | nil => rfl
  | cons x xs ih =>
    simp only [pySortUvDesc, List.insertionSort] at ih ⊢
    rw [orderedInsert_filter_uv k x (List.insertionSort uvGe xs)]
    simp only [List.filter_cons, ih]

/-- C5 (amended): the final `all_doc_stats.sort(key=lambda x: x.get("uv", 0),
reverse=True)` of the legacy orchestrator `get_document_statistics_async` produces a
list sorted by `uv` descending that is a permutation of its input and is stable —
records of equal `uv` keep their relative arrival order (their filtered subsequence is
unchanged).  The v2 entry point returns its records without this sort (see the
counterexample). -/
theorem C5_legacy_final_sort_desc_stable (l : List Record) :
    (pySortUvDesc l).Sorted uvGe ∧ (pySortUvDesc l).Perm l ∧
      ∀ k : Int, (pySortUvDesc l).filter (fun r => r.uv == k)
        = l.filter (fun r => r.uv == k) :=
  ⟨List.sorted_insertionSort uvGe l, List.perm_insertionSort uvGe l,
    fun k => pySortUvDesc_stable k l⟩

/-- Counterexample to C5 as stated: a completed run of the live orchestrator entry
point `get_document_statistics_async_v2` (the `/stats` route) returns the wiki record
(uv 1) followed by the flat-document records (uv 5): the final list is not sorted by
`uv` descending — v2 performs no sort at all. -/
theorem C5_v2_output_not_sorted_cex :
    (okD (get_document_statistics_async_v2 [wikiUrlC, docxUrlC, docxUrlC] cEmitted
        cStats cMetaOf)).map Record.uv = [1, 5, 5] ∧
      (get_document_statistics_async_v2 [wikiUrlC, docxUrlC, docxUrlC] cEmitted
        cStats cMetaOf).isOk = true ∧
      ¬ (okD (get_document_statistics_async_v2 [wikiUrlC, docxUrlC, docxUrlC] cEmitted
        cStats cMetaOf)).Sorted uvGe := by
  refine ⟨by rfl, by rfl, ?_⟩
  intro h
  have he : (okD (get_document_statistics_async_v2 [wikiUrlC, docxUrlC, docxUrlC]
      cEmitted cStats cMetaOf)).map Record.uv = [1, 5, 5] := by rfl
  have h2 : List.Pairwise (fun a b : Int => b ≤ a) [(1 : Int), 5, 5] := by
    rw [← he]
    exact List.pairwise_map.mpr h
  rcases List.pairwise_cons.mp h2 with ⟨hrel, _⟩
  have h5 : (5 : Int) ≤ 1 := hrel 5 (by simp)
  omega

def badUrlC4 : Url := ⟨"example.com".data, "/docx/X".data⟩

/-- C4 (code bug): a root identifier whose host is not a `larkoffice.com` domain makes
`parse_doc_url` return `None`, and `get_document_statistics_async_v2` then evaluates
`doc.doc_type` on that `None` in its wiki filter, raising `AttributeError` and
aborting the whole run with an error instead of skipping the bad root and processing
the rest. -/
theorem C4_unparseable_root_aborts_run :
    parse_doc_url badUrlC4 = none ∧
      get_document_statistics_async_v2 [badUrlC4] [] cStats cMetaOf
        = .error () := by
  constructor <;> rfl

theorem metaDictGet_token_eq (metas : List Meta) (tok : Str) (m : Meta)
    (h : metaDictGet metas tok = some m) : m.doc_token = tok := by
  unfold metaDictGet at h
  obtain ⟨_, h2⟩ := List.mem_filter.mp (getLastQ_mem _ m h)
  simpa using h2

theorem batcherLoop_flatten (n : Nat) :
    ∀ (l acc : List α),
      (batcherLoop n l acc).1.flatten ++ (batcherLoop n l acc).2 = acc ++ l := by
  intro l
  induction l with
  | nil => intro acc; simp [batcherLoop]
  | cons x rest ih =>
    intro acc
    simp only [batcherLoop]
    by_cases h : n ≤ (acc ++ [x]).length
    · simp only [h, if_true, List.flatten_cons]
      rw [List.append_assoc, ih []]
      simp
    · simp only [h, if_false]
      rw [ih (acc ++ [x])]
      simp

/-- With every item truthy (as Lark nodes are), the batches that came out of `batcher`
before it either ended or raised concatenate back to exactly the input stream. -/
theorem batcher_flatten (l : List α) (n : Nat) :
    ((batcher l n (fun _ => true)).1).flatten = l := by
  have h := batcherLoop_flatten n l []
  simp only [List.nil_append] at h
  unfold batcher
  rcases hb : (batcherLoop n l []).2 with _ | ⟨x, xs⟩
  · rw [hb] at h
    simp only [hb, List.append_nil] at h ⊢
    exact h
  · rw [hb] at h
    simp only [hb, if_true]
    rw [List.flatten_append, List.flatten_cons, List.flatten_nil, List.append_nil]
    exact h

theorem get_doc_info_loop_tokens_sublist (stats : Str × Str → Option Stat)
    (metas : List Meta) :
    ∀ docs : List RequestDoc,
      ((get_doc_info_loop stats metas docs).1.map Record.token).Sublist
        (docs.map RequestDoc.doc_token) := by
  intro docs
  induction docs with
  | nil => simp [get_doc_info_loop]
  | cons d t ih =>
    simp only [get_doc_info_loop]
    cases hs : stats (d.doc_token, d.doc_type) with
    | none =>
      cases hm : metaDictGet metas d.doc_token <;> simp only [hs, hm, List.map_cons] <;>
        exact ih.cons _
    | some st =>
      cases hm : metaDictGet metas d.doc_token with
      | none =>
        simp only [hs, hm, List.map_cons]
        exact ih.cons _
      | some m =>
        simp only [hs, hm, List.map_cons]
        have htok : (mkDocInfoRecord d st m).token = d.doc_token := by
          simp only [mkDocInfoRecord]
          exact metaDictGet_token_eq metas d.doc_token m hm
        rw [htok]
        exact ih.cons₂ _

/-- The token list of an aggregated batch is a sublist of the batch's own token
list. -/
theorem get_doc_info_tokens_sublist (docs : List RequestDoc)
    (stats : Str × Str → Option Stat) (metaOf : RequestDoc → Option Meta) :
    ((get_doc_info docs stats metaOf).1.map Record.token).Sublist
      (docs.map RequestDoc.doc_token) :=
  get_doc_info_loop_tokens_sublist stats (batch_get_meta_async docs metaOf) docs

theorem sublist_flatMap_of_forall (bs : List (List PNode))
    (f g : List PNode → List Str) (h : ∀ b ∈ bs, (f b).Sublist (g b)) :
    (bs.flatMap f).Sublist (bs.flatMap g) := by
  induction bs with
  | nil => simp
  | cons b t ih =>
    simp only [List.flatMap_cons]
    exact (h b (by simp)).append (ih (fun x hx => h x (by simp [hx])))

theorem map_over_flatMap (bs : List (List PNode)) (f : List PNode → List Record)
    (g : Record → Str) :
    ((bs.flatMap f).map g) = bs.flatMap (fun b => (f b).map g) := by
  induction bs with
  | nil => rfl
  | cons b t ih => simp [List.flatMap_cons, ih]

theorem flatMap_map_eq_map_flatten (bs : List (List PNode)) (h : PNode → Str) :
    bs.flatMap (fun b => b.map h) = bs.flatten.map h := by
  induction bs with
  | nil => rfl
  | cons b t ih => simp [List.flatMap_cons, List.flatten_cons, ih]

/-- The token list of a completed `get_wiki_info` run is a sublist of the walked
stream's object-token list. -/
theorem get_wiki_info_tokens_sublist (emitted : List PNode)
    (stats : Str × Str → Option Stat) (metaOf : RequestDoc → Option Meta)
    (out : List Record) (h : get_wiki_info emitted stats metaOf = .ok out) :
    (out.map Record.token).Sublist (emitted.map PNode.obj_token) := by
  unfold get_wiki_info at h
  rcases hb : batcher emitted 200 (fun _ => true) with ⟨batches, crashed⟩
  rw [hb] at h
  cases crashed with
  | true => simp at h
  | false =>
    simp only [Except.ok.injEq] at h
    subst h
    rw [map_over_flatMap]
    have hstep : (batches.flatMap (fun b =>
        ((get_doc_info (b.map (fun n => ⟨n.obj_token, n.obj_type⟩)) stats metaOf).1.map
          Record.token))).Sublist
        (batches.flatMap (fun b => b.map PNode.obj_token)) := by
      apply sublist_flatMap_of_forall
      intro b _
      have hs := get_doc_info_tokens_sublist
        (b.map (fun n => ⟨n.obj_token, n.obj_type⟩)) stats metaOf
      simpa [List.map_map, Function.comp] using hs
    have hfl : batches.flatMap (fun b => b.map PNode.obj_token)
        = emitted.map PNode.obj_token := by
      rw [flatMap_map_eq_map_flatten]
      have := batcher_flatten emitted 200
      rw [hb] at this
      simp only at this
      rw [this]
    rw [hfl] at hstep
    exact hstep

/-- C3 (amended): record tokens returned by the v2 orchestrator are drawn, one-to-one
and in order, from the walked nodes' object tokens followed by the flat (non-wiki)
root tokens; hence when the parsed roots and walked hierarchy members are pairwise
distinct — no duplicate roots, no flat root also occurring in a walked hierarchy, no
node shared between walks — no two returned records share the same token.  The code
performs no deduplication, so without that distinctness assumption duplicate tokens do
occur (see the counterexample). -/
theorem C3_unique_tokens_under_distinct_roots
    (urls : List Url) (walkEmitted : List PNode) (stats : Str × Str → Option Stat)
    (metaOf : RequestDoc → Option Meta) (ds : List RequestDoc) (out : List Record)
    (hparse : allSome (urls.map parse_doc_url) = some ds)
    (hok : get_document_statistics_async_v2 urls walkEmitted stats metaOf = .ok out)
    (hnd : (walkEmitted.map PNode.obj_token
        ++ (ds.filter (fun d => ¬ d.doc_type = "wiki".data)).map
            RequestDoc.doc_token).Nodup) :
    (out.map Record.token).Nodup := by
  unfold get_document_statistics_async_v2 at hok
  rw [hparse] at hok
  cases hw : get_wiki_info walkEmitted stats metaOf with
  | error e =>
    rw [hw] at hok
    simp at hok
  | ok w =>
    rw [hw] at hok
    simp only [Except.ok.injEq] at hok
    subst hok
    rw [List.map_append]
    refine List.Nodup.sublist (List.Sublist.append ?_ ?_) hnd
    · exact get_wiki_info_tokens_sublist walkEmitted stats metaOf w hw
    · exact get_doc_info_tokens_sublist _ stats metaOf

/-- Counterexample to C3 as stated: with the flat document URL
`https://bytedance.larkoffice.com/docx/X` listed twice among the roots (and one wiki
root so the batcher does not raise), the completed v2 run returns three records with
token list `[WO, X, X]` — the duplicated flat root yields two records with the same
token, so record identity is not unique in the final output. -/
theorem C3_duplicate_roots_cex :
    Except.map (fun l => l.map Record.token)
        (get_document_statistics_async_v2 [wikiUrlC, docxUrlC, docxUrlC] cEmitted
          cStats cMetaOf)
      = .ok ["WO".data, "X".data, "X".data] ∧
      ¬ (["WO".data, "X".data, "X".data] : List Str).Nodup := by
  constructor
  · rfl
  · decide

/-- Witness for C3 (amended) at the concrete scenario with distinct roots `W` (wiki)
and `X` (flat docx): the distinctness hypothesis holds and the completed run's token
list has no duplicates. -/
theorem C3_unique_tokens_under_distinct_roots_witness :
    ((cEmitted.map PNode.obj_token
        ++ (([⟨"W".data, "wiki".data⟩, ⟨"X".data, "docx".data⟩] : List RequestDoc).filter
            (fun d => ¬ d.doc_type = "wiki".data)).map RequestDoc.doc_token).Nodup) ∧
      ((okD (get_document_statistics_async_v2 [wikiUrlC, docxUrlC] cEmitted cStats
        cMetaOf)).map Record.token).Nodup :=
  ⟨by decide,
    C3_unique_tokens_under_distinct_roots [wikiUrlC, docxUrlC] cEmitted cStats cMetaOf
      [⟨"W".data, "wiki".data⟩, ⟨"X".data, "docx".data⟩]
      (okD (get_document_statistics_async_v2 [wikiUrlC, docxUrlC] cEmitted cStats
        cMetaOf))
      (by rfl) (by rfl) (by decide)⟩

/-- Counterexample to C6 as stated: (a) in the v2 pipeline the record produced for the
walk root (object token `WO`, first record of the completed run) has the DERIVED
`source_url` `https://bytedance.larkoffice.com/docx/WO`, not the caller-supplied
original URL `https://bytedance.larkoffice.com/wiki/W`; (b) in the legacy pipeline a
non-root record's `source_url` is `base_url + "/wiki/" + node_token`
(`.../wiki/NT`), which differs from the URL derived from the identity's type and token
(`.../docx/OT`). -/
theorem C6_source_url_cex :
    (okD (get_document_statistics_async_v2 [wikiUrlC, docxUrlC, docxUrlC] cEmitted
        cStats cMetaOf)).head?.map Record.source_url
      = some "https://bytedance.larkoffice.com/docx/WO".data ∧
      "https://bytedance.larkoffice.com/docx/WO".data
        ≠ "https://bytedance.larkoffice.com/wiki/W".data ∧
      (DocumentStats.from_api_stats cNodeC6 (some cApiStatsC6) "u".data false).map
          DocumentStats.source_url
        = some "https://bytedance.larkoffice.com/wiki/NT".data ∧
      "https://bytedance.larkoffice.com/wiki/NT".data
        ≠ "https://bytedance.larkoffice.com/docx/OT".data := by
  refine ⟨by rfl, by decide, by rfl, by decide⟩

set_option maxRecDepth 4000 in
/-- Witness for C9 (amended) at the concrete 201-identity input: both call shapes
respect the 200 ceiling, the chunked calls concatenate back to the input, and the
async call list flattens to only the first 200 identities. -/
theorem C9_meta_bulk_call_ceiling_and_chunking_witness :
    (∀ c ∈ meta_calls_chunked docs201, c.length ≤ 200) ∧
      (meta_calls_chunked docs201).flatten = docs201 ∧
      (∀ c ∈ meta_calls_async docs201, c.length ≤ 200) ∧
      (meta_calls_async docs201).flatten = docs201.take 200 :=
  C9_meta_bulk_call_ceiling_and_chunking docs201
